import Mathlib

/-!
Verification of the OpenVPN GUI manager backend (`vpn_manager.py`).

The development shallowly embeds the `VPNManager` class: pure text
transformations (`_inject_auth_credentials`, `_inject_dns_leak_prevention`,
`_create_auth_file` content) become functions on `List Char`; the mutable
object state becomes an explicit `MState` record; filesystem effects become an
association list threaded through the operations; subprocess spawns, Qt signal
emissions and log prints become an explicit `Event` trace.  Host conditions
that the Python code observes (`os.path.exists`, subprocess exit codes,
timeouts, `pgrep` results) are passed in as explicit parameters.
-/

namespace VPNSpec

/-- Characters of a string literal, used to write file contents and paths. -/
def lc (s : String) : List Char := s.data

/-! ### Plain (case-sensitive) substring search: Python's `tok in content`. -/

/-- `tok` is a plain prefix of `s` (character-for-character equality). -/
def isPrefixPl : List Char → List Char → Bool
  | [], _ => true
  | _ :: _, [] => false
  | a :: as, b :: bs => a == b && isPrefixPl as bs

/-- Python's substring test `tok in content` for a non-empty `tok`. -/
def containsSub (tok : List Char) : List Char → Bool
  | [] => false
  | c :: rest => isPrefixPl tok (c :: rest) || containsSub tok rest

/-! ### Case-insensitive matching: model of `re` with `re.IGNORECASE`. -/

/-- Case-insensitive character comparison (ASCII lowering, as `re` does for
the ASCII pattern characters used here). -/
def lowerEq (a b : Char) : Bool := a.toLower == b.toLower

/-- Try to strip `tok` (case-insensitively) from the front of `s`; on success
return the rest of `s`. -/
def dropCI : List Char → List Char → Option (List Char)
  | [], s => some s
  | _ :: _, [] => none
  | t :: ts, c :: cs => if lowerEq t c then dropCI ts cs else none

/-- Number of positions of `s` at which `tok` matches case-insensitively
(the number of occurrences of the pattern `tok` in the subject `s`). -/
def occursCI (tok : List Char) : List Char → Nat
  | [] => 0
  | c :: rest => (if (dropCI tok (c :: rest)).isSome then 1 else 0) + occursCI tok rest

/-- Model of `re.search(tok, s, re.IGNORECASE) is not None` for a plain-text
pattern `tok`. -/
def containsCI (tok : List Char) : List Char → Bool
  | [] => false
  | c :: rest => (dropCI tok (c :: rest)).isSome || containsCI tok rest

/-- Python's `\s` character class. -/
def isPySpace (c : Char) : Bool :=
  c == ' ' || c == '\t' || c == '\n' || c == '\r' || c == '\x0b' || c == '\x0c'

/-- The literal pattern text `auth-user-pass`. -/
def authTok : List Char := lc "auth-user-pass"

/-- One attempted match of the regex `auth-user-pass\s+[^\n]*` at the head of
`s` (case-insensitive): on success, return the remainder of `s` after the
matched region (`\s+` and `[^\n]*` both greedy, as in `re`). -/
def matchAuth (s : List Char) : Option (List Char) :=
  match dropCI authTok s with
  | some (c :: t) =>
    if isPySpace c then
      some (List.dropWhile (fun x => !(x == '\n')) (List.dropWhile isPySpace (c :: t)))
    else none
  | _ => none

/-- Fuel-indexed worker for the scanning substitution of
`re.sub(r'auth-user-pass\s+[^\n]*', 'auth-user-pass ' + af, content, re.IGNORECASE)`:
leftmost non-overlapping matches, replacement not rescanned.  `fuel` is an upper
bound on the number of characters left to scan. -/
def subAuthF (af : List Char) : Nat → List Char → List Char
  | 0, s => s
  | _ + 1, [] => []
  | fuel + 1, c :: rest =>
    match matchAuth (c :: rest) with
    | some rem => (authTok ++ ' ' :: af) ++ subAuthF af fuel rem
    | none => c :: subAuthF af fuel rest

/-- `re.sub(r'auth-user-pass\s+[^\n]*', f'auth-user-pass {af}', s, flags=re.IGNORECASE)`. -/
def subAuth (af s : List Char) : List Char := subAuthF af s.length s

/-- `VPNManager._inject_auth_credentials`, as the pure transformation it
performs on the config file's text (read, test, substitute-or-append, write). -/
def inject_auth_credentials (content af : List Char) : List Char :=
  if containsCI authTok content then
    subAuth af content
  else
    content ++ lc "\n# VPN Credentials (added by VPN Manager)\nauth-user-pass " ++ af ++ ['\n']

/-! ### DNS leak prevention injection. -/

/-- The line block `'\n' + '\n'.join(dns_settings) + '\n'` appended by
`_inject_dns_leak_prevention`, for each host-filesystem case
(`resolv` = `/etc/openvpn/update-resolv-conf` exists, `sysd` =
`/etc/openvpn/update-systemd-resolved` exists; the first existing one wins). -/
def dnsBlock (resolv sysd : Bool) : List Char :=
  lc "\n\n# DNS Leak Prevention (added by VPN Manager)\nscript-security 2\n" ++
  (if resolv then
    lc "up /etc/openvpn/update-resolv-conf\ndown /etc/openvpn/update-resolv-conf\ndown-pre\n"
  else if sysd then
    lc "up /etc/openvpn/update-systemd-resolved\ndown /etc/openvpn/update-systemd-resolved\ndown-pre\n"
  else
    lc "# Note: Install openresolv for automatic DNS handling:\n# sudo apt install openresolv\n# Or use systemd-resolved if available\n") ++
  lc "\n# Disable IPv6 to prevent leaks (run manually if needed):\n# sudo sysctl -w net.ipv6.conf.all.disable_ipv6=1\n# sudo sysctl -w net.ipv6.conf.default.disable_ipv6=1\n"

/-- `VPNManager._inject_dns_leak_prevention` as the pure transformation on the
config file's text; `resolv`/`sysd` are the host's `os.path.exists` answers for
the two well-known helper-script paths. -/
def inject_dns_leak_prevention (content : List Char) (resolv sysd : Bool) : List Char :=
  if containsSub (lc "update-resolv-conf") content ||
     containsSub (lc "update-systemd-resolved") content then
    content
  else
    content ++ dnsBlock resolv sysd

/-! ### Path manipulation: `os.path.basename`, `os.path.dirname`, `Path.stem`. -/

/-- `os.path.basename`: the part of the path after the last `/`. -/
def basenameOf (p : List Char) : List Char :=
  (p.reverse.takeWhile (fun c => !(c == '/'))).reverse

/-- `os.path.dirname`: the part of the path before the last `/`. -/
def dirnameOf (p : List Char) : List Char :=
  ((p.reverse.dropWhile (fun c => !(c == '/'))).drop 1).reverse

/-- `pathlib.Path(p).stem`: the final component without its last extension
(a leading dot alone does not start an extension). -/
def stemOf (p : List Char) : List Char :=
  let b := basenameOf p
  match b.reverse.dropWhile (fun c => !(c == '.')) with
  | [] => b
  | _ :: [] => b
  | _ :: rest => rest.reverse

/-- `str.endswith('.ovpn')`. -/
def endsWithOvpn (p : List Char) : Bool :=
  isPrefixPl (lc ".ovpn").reverse p.reverse

/-! ### Filesystem model: path ↦ (content, permission mode). -/

/-- A host filesystem fragment: an association list from absolute paths to
file content and permission bits. -/
def Fs : Type := List (List Char × (List Char × Nat))

/-- `os.path.exists`/file read: look a path up. -/
def lookupFs : Fs → List Char → Option (List Char × Nat)
  | [], _ => none
  | (q, e) :: rest, p => if q = p then some e else lookupFs rest p

/-- `open(p, 'w')`: write `content` at `p`.  An existing file keeps its mode;
a new file gets the process default mode `dmode`. -/
def writeFs (fs : Fs) (p content : List Char) (dmode : Nat) : Fs :=
  match fs with
  | [] => [(p, (content, dmode))]
  | (q, e) :: rest =>
    if q = p then (p, (content, e.2)) :: rest else (q, e) :: writeFs rest p content dmode

/-- `shutil.copy2`-style write: content and mode both come from the source. -/
def copyFs (fs : Fs) (p content : List Char) (mode : Nat) : Fs :=
  match fs with
  | [] => [(p, (content, mode))]
  | (q, e) :: rest =>
    if q = p then (p, (content, mode)) :: rest else (q, e) :: copyFs rest p content mode

/-- `os.chmod`. -/
def chmodFs (fs : Fs) (p : List Char) (mode : Nat) : Fs :=
  match fs with
  | [] => []
  | (q, e) :: rest =>
    if q = p then (p, (e.1, mode)) :: rest else (q, e) :: chmodFs rest p mode

/-- `os.remove` (on a present path). -/
def eraseFs (fs : Fs) (p : List Char) : Fs :=
  match fs with
  | [] => []
  | (q, e) :: rest => if q = p then rest else (q, e) :: eraseFs rest p

/-! ### `_create_auth_file`. -/

/-- The secrets file text `f"{username}\n{password}\n"`. -/
def authContent (username password : List Char) : List Char :=
  username ++ '\n' :: (password ++ ['\n'])

/-- The generated auth-file path: `os.path.join(os.path.dirname(configPath),
'auth', Path(configPath).stem + '.auth')`. -/
def authFilePath (configPath : List Char) : List Char :=
  dirnameOf configPath ++ '/' :: (lc "auth" ++ '/' :: (stemOf configPath ++ lc ".auth"))

/-- `VPNManager._create_auth_file`: write the two credential lines into the
`auth` subdirectory beside the config and restrict the mode to `0o600` (384).
Returns the updated filesystem and the auth-file path. -/
def create_auth_file (fs : Fs) (configPath username password : List Char)
    (dmode : Nat) : Fs × List Char :=
  let authFile := authFilePath configPath
  let fs1 := writeFs fs authFile (authContent username password) dmode
  let fs2 := chmodFs fs1 authFile 384
  (fs2, authFile)

/-! ### The manager's data model. -/

/-- One entry of `self._configs`: `{'name', 'path', 'latency', 'ping_success'}`.
Latency is modelled by a rational (the Python value is a float used only in
order comparisons; the `float('inf')` sentinel of `get_best_server` is
represented by the `Option` accumulator below). -/
structure Config where
  name : List Char
  path : List Char
  latency : ℚ
  pingSuccess : Bool
  deriving DecidableEq, Repr

/-- The mutable `VPNManager` object state (the fields the claims touch).
`connectionProcessLive` models `self._connection_process`: `none` when the
field is `None`, `some b` when it holds a process object with
`b = (poll() is None)` (the process is still running). -/
structure MState where
  configs : List Config
  connectedConfig : Option Config
  connectionProcessLive : Option Bool
  pendingConnectConfig : Option Config
  storedPassword : Option (List Char)
  pendingConfigForCredentials : Option (List Char)
  pendingVpnUsername : Option (List Char)
  pendingVpnPassword : Option (List Char)
  configDir : List Char
  deriving DecidableEq, Repr

/-- Observable effects: Qt signal emissions, subprocess spawns (argv plus the
data written to the child's standard input), file writes, and log prints. -/
inductive Event where
  | errorOccurred (msg : List Char)
  | statusChanged (status : List Char)
  | passwordRequested (msg : List Char)
  | configsChanged
  | spawnProc (argv : List (List Char)) (stdinPayload : Option (List Char))
  | fileWrite (path content : List Char)
  | logMsg (msg : List Char)
  deriving DecidableEq, Repr

/-- `Event.spawnProc` recogniser. -/
def Event.isSpawn : Event → Bool
  | .spawnProc _ _ => true
  | _ => false

/-- `Event.fileWrite` recogniser. -/
def Event.isFileWrite : Event → Bool
  | .fileWrite _ _ => true
  | _ => false

/-- `Event.logMsg` recogniser. -/
def Event.isLog : Event → Bool
  | .logMsg _ => true
  | _ => false

/-- `Event.errorOccurred` recogniser. -/
def Event.isError : Event → Bool
  | .errorOccurred _ => true
  | _ => false

/-- Erase standard-input payloads, keeping everything publicly observable
about an event (used to state that spawns differ only on stdin). -/
def Event.scrubStdin : Event → Event
  | .spawnProc argv _ => .spawnProc argv none
  | e => e

/-- The event neither writes a file nor prints a log line. -/
def noPersist (e : Event) : Prop :=
  e.isFileWrite = false ∧ e.isLog = false

/-- If the event spawns a process, the data sent to that process's standard
input is either nothing or exactly the secret followed by a newline: the
secret travels on no other channel of the spawn. -/
def stdinOnlyFor (secret : List Char) : Event → Prop
  | .spawnProc _ payload => payload = none ∨ payload = some (secret ++ ['\n'])
  | _ => True

/-- The `connection_status` property:  `"connected"`/`"connecting"` when a
backing process exists and is still running, `"disconnected"` otherwise. -/
def connection_status (st : MState) : List Char :=
  match st.connectionProcessLive with
  | some true => if st.connectedConfig.isSome then lc "connected" else lc "connecting"
  | _ => lc "disconnected"

/-- `self._configs` lookup by name, as the `for`/`break` loop performs it
(first match wins). -/
def findConfig : List Config → List Char → Option Config
  | [], _ => none
  | c :: rest, n => if c.name = n then some c else findConfig rest n

/-- `VPNManager.connect_vpn`: reject when a backing process is live, reject an
unknown name, otherwise record the pending config and request the privileged
secret. -/
def connect_vpn (st : MState) (configName : List Char) : MState × List Event :=
  if st.connectionProcessLive = some true then
    (st, [.errorOccurred (lc "Already connected. Please disconnect first.")])
  else
    match findConfig st.configs configName with
    | none => (st, [.errorOccurred (lc "Config not found: " ++ configName)])
    | some config =>
      ({ st with pendingConnectConfig := some config },
       [.passwordRequested (lc "Enter your password to connect to VPN")])

/-- Host-side outcomes observed while `_connect_vpn_with_password` runs:
the `sudo` exit status, whether `wait(timeout=5)` timed out, the text on the
elevation tool's stderr, and whether `pgrep -f openvpn` found a process. -/
structure ConnectEnv where
  sudoExit : Int
  sudoTimedOut : Bool
  stderrText : List Char
  pgrepFound : Bool
  deriving DecidableEq, Repr

/-- `VPNManager._connect_vpn_with_password`: spawn
`sudo -S openvpn --config <path> --daemon`, feed the secret on stdin, then
branch on the elevation result and the `pgrep` process-presence check. -/
def connect_vpn_with_password (st : MState) (password : List Char)
    (env : ConnectEnv) : MState × List Event :=
  match st.pendingConnectConfig with
  | none => (st, [])
  | some config =>
    let st0 := { st with pendingConnectConfig := none }
    let evs0 : List Event :=
      [.statusChanged (lc "connecting"),
       .spawnProc [lc "sudo", lc "-S", lc "openvpn", lc "--config", config.path, lc "--daemon"]
         (some (password ++ ['\n']))]
    if env.sudoTimedOut then
      (st0, evs0 ++ [.errorOccurred (lc "Connection timeout. Please try again."),
                     .statusChanged (lc "error")])
    else if env.sudoExit = 0 then
      let pg : Event := .spawnProc [lc "pgrep", lc "-f", lc "openvpn"] none
      if env.pgrepFound then
        ({ st0 with connectedConfig := some config, storedPassword := some password },
         evs0 ++ [pg, .statusChanged (lc "connected")])
      else
        (st0, evs0 ++ [pg,
          .errorOccurred (lc "Failed to start OpenVPN. Check if OpenVPN is installed and config is valid."),
          .statusChanged (lc "error")])
    else
      let authFailed : Bool :=
        containsSub (lc "password") (env.stderrText.map Char.toLower) || env.sudoExit = 1
      let emsg := if authFailed then lc "Authentication failed" else lc "Failed to connect"
      (st0, evs0 ++ [.errorOccurred (emsg ++ lc ". Please check your password and OpenVPN installation."),
                     .statusChanged (lc "error")])

/-- `VPNManager.disconnect_vpn`: kill the VPN client under elevation (secret
on stdin when one was retained, unprivileged otherwise), ignore the kill
command's exit status (`killExit`), then unconditionally clear the
active-connection state and report `"disconnected"`. -/
def disconnect_vpn (st : MState) (killExit : Int) : MState × List Event :=
  let killEv : Event :=
    match st.storedPassword with
    | some pw => .spawnProc [lc "sudo", lc "-S", lc "pkill", lc "openvpn"] (some (pw ++ ['\n']))
    | none => .spawnProc [lc "sudo", lc "pkill", lc "openvpn"] none
  let _ := killExit
  ({ st with connectionProcessLive := none, connectedConfig := none, storedPassword := none },
   [killEv, .statusChanged (lc "disconnected")])

/-- The `for config in list(self._configs)` loop of `delete_all_configs`:
best-effort `os.remove` of each record's file (`removeOk` tells which removals
the host lets succeed; a failure is only printed). -/
def delete_all_go (removeOk : List Char → Bool) : Fs → List Event → List Config → Fs × List Event
  | fs, logs, [] => (fs, logs)
  | fs, logs, c :: rest =>
    if (lookupFs fs c.path).isSome then
      if removeOk c.path then
        delete_all_go removeOk (eraseFs fs c.path) logs rest
      else
        delete_all_go removeOk fs (logs ++ [.logMsg (lc "Error deleting " ++ c.name)]) rest
    else
      delete_all_go removeOk fs logs rest

/-- `VPNManager.delete_all_configs`: best-effort deletion of every record's
backing file, then clear the collection unconditionally. -/
def delete_all_configs (st : MState) (fs : Fs) (removeOk : List Char → Bool) :
    MState × Fs × List Event :=
  let (fs', logs) := delete_all_go removeOk fs [] st.configs
  ({ st with configs := [] }, fs', logs ++ [.configsChanged])

/-- The loop condition of `get_best_server`:
`config['ping_success'] and config['latency'] > 0 and config['latency'] < best_latency`,
where `best_latency` is `float('inf')` exactly when no best record has been
chosen yet (`best = none`) and the best record's latency otherwise. -/
def better (best : Option Config) (c : Config) : Bool :=
  c.pingSuccess && decide (0 < c.latency) &&
    (match best with
     | none => true
     | some b => decide (c.latency < b.latency))

/-- `VPNManager.get_best_server`'s loop over the records. -/
def get_best_server_go : List Config → Option Config → Option Config
  | [], best => best
  | c :: rest, best => get_best_server_go rest (if better best c then some c else best)

/-- `VPNManager.get_best_server`. -/
def get_best_server (configs : List Config) : List Char :=
  match get_best_server_go configs none with
  | some b => b.name
  | none => []

/-! ### Importing configurations. -/

/-- `VPNManager._add_config_file_with_credentials`: validate the source path,
copy it into the managed directory, generate the auth file, then inject the
auth directive and the DNS leak prevention block into the copied file. -/
def add_config_file_with_credentials (st : MState) (fs : Fs)
    (filePath username password : List Char) (resolv sysd : Bool) (dmode : Nat) :
    MState × Fs × List Event :=
  match lookupFs fs filePath with
  | none => (st, fs, [.errorOccurred (lc "File not found: " ++ filePath)])
  | some (content, mode) =>
    if endsWithOvpn filePath = false then
      (st, fs, [.errorOccurred (lc "File must be a .ovpn file")])
    else
      let filename := basenameOf filePath
      let destPath := st.configDir ++ '/' :: filename
      let fs1 := copyFs fs destPath content mode
      let (fs2, authFile) := create_auth_file fs1 destPath username password dmode
      let c1 := inject_auth_credentials content authFile
      let fs3 := writeFs fs2 destPath c1 dmode
      let c2 := inject_dns_leak_prevention c1 resolv sysd
      let fs4 := writeFs fs3 destPath c2 dmode
      let cfg : Config := ⟨stemOf filename, destPath, -1, false⟩
      ({ st with configs := st.configs ++ [cfg] }, fs4, [.configsChanged])

/-- The `for file_path in Path(folder_path).rglob("*.ovpn")` loop of
`_add_config_folder_with_credentials`.  `srcFiles` lists the matched source
files in iteration order as (basename, content, mode); a file whose
destination already exists is skipped silently. -/
def add_config_folder_go (cfgDir username password : List Char) (resolv sysd : Bool)
    (dmode : Nat) :
    Fs → List Config → Nat → List (List Char × List Char × Nat) → Fs × List Config × Nat
  | fs, cfgs, count, [] => (fs, cfgs, count)
  | fs, cfgs, count, (fname, content, mode) :: rest =>
    let destPath := cfgDir ++ '/' :: fname
    if (lookupFs fs destPath).isSome then
      add_config_folder_go cfgDir username password resolv sysd dmode fs cfgs count rest
    else
      let fs1 := copyFs fs destPath content mode
      let (fs2, authFile) := create_auth_file fs1 destPath username password dmode
      let c1 := inject_auth_credentials content authFile
      let fs3 := writeFs fs2 destPath c1 dmode
      let c2 := inject_dns_leak_prevention c1 resolv sysd
      let fs4 := writeFs fs3 destPath c2 dmode
      let cfg : Config := ⟨stemOf fname, destPath, -1, false⟩
      add_config_folder_go cfgDir username password resolv sysd dmode fs4 (cfgs ++ [cfg]) (count + 1) rest

/-- `VPNManager._add_config_folder_with_credentials`: import every matched
file of the folder, skipping destination collisions; report an error exactly
when nothing was newly added. -/
def add_config_folder_with_credentials (st : MState) (fs : Fs)
    (folderPath : List Char) (folderExists : Bool)
    (srcFiles : List (List Char × List Char × Nat))
    (username password : List Char) (resolv sysd : Bool) (dmode : Nat) :
    MState × Fs × List Event :=
  if folderExists = false then
    (st, fs, [.errorOccurred (lc "Folder not found: " ++ folderPath)])
  else
    let (fs', cfgs', count) :=
      add_config_folder_go st.configDir username password resolv sysd dmode fs st.configs 0 srcFiles
    if 0 < count then
      ({ st with configs := cfgs' }, fs', [.configsChanged])
    else
      ({ st with configs := cfgs' }, fs', [.errorOccurred (lc "No new .ovpn files found in folder")])

/-- Host-side context a credential submission runs against: the
`os.path.isfile` answer for the pending path, the folder's matched files and
existence, the DNS helper-script presence, and the default file mode. -/
structure CredEnv where
  fileIsFile : Bool
  folderExists : Bool
  srcFiles : List (List Char × List Char × Nat)
  resolv : Bool
  sysd : Bool
  dmode : Nat
  deriving DecidableEq, Repr

/-- `VPNManager.provide_vpn_credentials`: reject empty credentials before any
state or filesystem change; otherwise stash the pair and run the pending
single-file or folder import, then clear the pending fields. -/
def provide_vpn_credentials (st : MState) (fs : Fs)
    (username password : List Char) (env : CredEnv) : MState × Fs × List Event :=
  if username = [] ∨ password = [] then
    (st, fs, [.errorOccurred (lc "Username and password are required")])
  else
    let st1 := { st with pendingVpnUsername := some username,
                         pendingVpnPassword := some password }
    match st.pendingConfigForCredentials with
    | none => (st1, fs, [])
    | some pendingPath =>
      let out :=
        if env.fileIsFile then
          add_config_file_with_credentials st1 fs pendingPath username password
            env.resolv env.sysd env.dmode
        else
          add_config_folder_with_credentials st1 fs pendingPath env.folderExists
            env.srcFiles username password env.resolv env.sysd env.dmode
      ({ out.1 with pendingConfigForCredentials := none, pendingVpnUsername := none,
                    pendingVpnPassword := none },
       out.2.1, out.2.2)

/-! ## Supporting lemmas -/

theorem dropCI_length : ∀ {tok s r : List Char}, dropCI tok s = some r →
    s.length = tok.length + r.length := by
  intro tok
  induction tok with
  | nil => intro s r h; simp [dropCI] at h; simp [h]
  | cons t ts ih =>
    intro s r h
    cases s with
    | nil => simp [dropCI] at h
    | cons c cs =>
      simp only [dropCI] at h
      split at h
      · have := ih h; simp [List.length_cons, this]; omega
      · exact absurd h (by simp)

theorem length_dropWhile_le (p : Char → Bool) (l : List Char) :
    (l.dropWhile p).length ≤ l.length := by
  induction l with
  | nil => simp
  | cons c t ih =>
    rw [List.dropWhile_cons]; split
    · simp only [List.length_cons]; omega
    · simp

theorem matchAuth_length : ∀ {s r : List Char}, matchAuth s = some r →
    r.length < s.length := by
  intro s r h
  cases h1 : dropCI authTok s with
  | none => simp only [matchAuth, h1] at h; exact Option.noConfusion h
  | some r0 =>
    have hlen := dropCI_length h1
    have htok : authTok.length = 14 := by decide
    cases r0 with
    | nil => simp only [matchAuth, h1] at h; exact Option.noConfusion h
    | cons c t =>
      simp only [matchAuth, h1] at h
      by_cases hsp : isPySpace c = true
      · rw [if_pos hsp] at h
        injection h with h2
        have l1 := length_dropWhile_le (fun x => !(x == '\n')) (List.dropWhile isPySpace (c :: t))
        have l2 := length_dropWhile_le isPySpace (c :: t)
        rw [← h2]
        simp only [List.length_cons] at hlen l1 l2 ⊢
        omega
      · rw [if_neg hsp] at h
        exact Option.noConfusion h

theorem subAuthF_fuel (af : List Char) : ∀ (n m : Nat) (s : List Char),
    s.length ≤ n → s.length ≤ m → subAuthF af n s = subAuthF af m s := by
  intro n
  induction n with
  | zero =>
    intro m s hn _
    have : s = [] := List.length_eq_zero.mp (Nat.le_zero.mp hn)
    subst this
    cases m <;> rfl
  | succ n ih =>
    intro m s hn hm
    cases s with
    | nil => cases m <;> rfl
    | cons c rest =>
      cases m with
      | zero => simp at hm
      | succ m' =>
        cases hma : matchAuth (c :: rest) with
        | some rem =>
          have hlt := matchAuth_length hma
          simp only [subAuthF, hma]
          simp only [List.length_cons] at hlt hn hm
          rw [ih m' rem (by omega) (by omega)]
        | none =>
          simp only [subAuthF, hma]
          simp only [List.length_cons] at hn hm
          rw [ih m' rest (by omega) (by omega)]

theorem subAuth_nil (af : List Char) : subAuth af [] = [] := rfl

theorem subAuth_cons_some {c : Char} {rest rem : List Char} (af : List Char)
    (h : matchAuth (c :: rest) = some rem) :
    subAuth af (c :: rest) = (authTok ++ ' ' :: af) ++ subAuth af rem := by
  have hlt := matchAuth_length h
  simp only [subAuth, List.length_cons, subAuthF, h]
  rw [subAuthF_fuel af rest.length rem.length rem (by simpa using Nat.lt_succ_iff.mp hlt) le_rfl]

theorem subAuth_cons_none {c : Char} {rest : List Char} (af : List Char)
    (h : matchAuth (c :: rest) = none) :
    subAuth af (c :: rest) = c :: subAuth af rest := by
  simp only [subAuth, List.length_cons, subAuthF, h]

/-! ### Association-list filesystem lemmas. -/

theorem lookupFs_writeFs_self (fs : Fs) (p content : List Char) (dmode : Nat) :
    ∃ m, lookupFs (writeFs fs p content dmode) p = some (content, m) := by
  induction fs with
  | nil => exact ⟨dmode, by simp [writeFs, lookupFs]⟩
  | cons hd rest ih =>
    obtain ⟨q, e⟩ := hd
    by_cases hq : q = p
    · exact ⟨e.2, by simp [writeFs, hq, lookupFs]⟩
    · obtain ⟨m, hm⟩ := ih
      exact ⟨m, by simp [writeFs, hq, lookupFs, hm]⟩

theorem lookupFs_writeFs_ne (fs : Fs) (p content : List Char) (dmode : Nat)
    (k : List Char) (h : p ≠ k) :
    lookupFs (writeFs fs p content dmode) k = lookupFs fs k := by
  induction fs with
  | nil => simp [writeFs, lookupFs, h]
  | cons hd rest ih =>
    obtain ⟨q, e⟩ := hd
    by_cases hq : q = p
    · subst hq; simp [writeFs, lookupFs, h]
    · simp [writeFs, hq, lookupFs, ih]

theorem lookupFs_copyFs_self (fs : Fs) (p content : List Char) (mode : Nat) :
    lookupFs (copyFs fs p content mode) p = some (content, mode) := by
  induction fs with
  | nil => simp [copyFs, lookupFs]
  | cons hd rest ih =>
    obtain ⟨q, e⟩ := hd
    by_cases hq : q = p
    · simp [copyFs, hq, lookupFs]
    · simp [copyFs, hq, lookupFs, ih]

theorem lookupFs_copyFs_ne (fs : Fs) (p content : List Char) (mode : Nat)
    (k : List Char) (h : p ≠ k) :
    lookupFs (copyFs fs p content mode) k = lookupFs fs k := by
  induction fs with
  | nil => simp [copyFs, lookupFs, h]
  | cons hd rest ih =>
    obtain ⟨q, e⟩ := hd
    by_cases hq : q = p
    · subst hq; simp [copyFs, lookupFs, h]
    · simp [copyFs, hq, lookupFs, ih]

theorem lookupFs_chmodFs_self (fs : Fs) (p : List Char) (mode : Nat)
    {e : List Char × Nat} (h : lookupFs fs p = some e) :
    lookupFs (chmodFs fs p mode) p = some (e.1, mode) := by
  induction fs with
  | nil => simp [lookupFs] at h
  | cons hd rest ih =>
    obtain ⟨q, e'⟩ := hd
    by_cases hq : q = p
    · simp [lookupFs, hq] at h
      simp [chmodFs, hq, lookupFs, h]
    · simp [lookupFs, hq] at h
      simp [chmodFs, hq, lookupFs, ih h]

theorem lookupFs_chmodFs_ne (fs : Fs) (p : List Char) (mode : Nat)
    (k : List Char) (h : p ≠ k) :
    lookupFs (chmodFs fs p mode) k = lookupFs fs k := by
  induction fs with
  | nil => simp [chmodFs]
  | cons hd rest ih =>
    obtain ⟨q, e⟩ := hd
    by_cases hq : q = p
    · subst hq; simp [chmodFs, lookupFs, h]
    · simp [chmodFs, hq, lookupFs, ih]

/-! ### Path-shape lemmas. -/

theorem takeWhile_all_append (p : Char → Bool) :
    ∀ (l₁ l₂ : List Char), (∀ c ∈ l₁, p c = true) →
      List.takeWhile p (l₁ ++ l₂) = l₁ ++ List.takeWhile p l₂ := by
  intro l₁
  induction l₁ with
  | nil => intro l₂ _; simp
  | cons c t ih =>
    intro l₂ h
    have hc : p c = true := h c (by simp)
    simp only [List.cons_append, List.takeWhile_cons, hc, if_true]
    rw [ih l₂ (fun x hx => h x (by simp [hx]))]

theorem dropWhile_all_append (p : Char → Bool) :
    ∀ (l₁ l₂ : List Char), (∀ c ∈ l₁, p c = true) →
      List.dropWhile p (l₁ ++ l₂) = List.dropWhile p l₂ := by
  intro l₁
  induction l₁ with
  | nil => intro l₂ _; simp
  | cons c t ih =>
    intro l₂ h
    have hc : p c = true := h c (by simp)
    simp only [List.cons_append, List.dropWhile_cons, hc, if_true]
    exact ih l₂ (fun x hx => h x (by simp [hx]))

theorem basenameOf_eq (dir base : List Char) (hb : ('/' : Char) ∉ base) :
    basenameOf (dir ++ '/' :: base) = base := by
  unfold basenameOf
  have hrev : (dir ++ '/' :: base).reverse = base.reverse ++ '/' :: dir.reverse := by
    simp [List.reverse_append, List.append_assoc]
  rw [hrev, takeWhile_all_append _ _ _ (by
    intro c hc
    have : c ∈ base := List.mem_reverse.mp hc
    simp only [Bool.not_eq_true']
    exact beq_eq_false_iff_ne.mpr (fun h => hb (h ▸ this)))]
  rw [List.takeWhile_cons]
  rw [if_neg (by decide)]
  simp

theorem dirnameOf_eq (dir base : List Char) (hb : ('/' : Char) ∉ base) :
    dirnameOf (dir ++ '/' :: base) = dir := by
  unfold dirnameOf
  have hrev : (dir ++ '/' :: base).reverse = base.reverse ++ '/' :: dir.reverse := by
    simp [List.reverse_append, List.append_assoc]
  rw [hrev, dropWhile_all_append _ _ _ (by
    intro c hc
    have : c ∈ base := List.mem_reverse.mp hc
    simp only [Bool.not_eq_true']
    exact beq_eq_false_iff_ne.mpr (fun h => hb (h ▸ this)))]
  rw [List.dropWhile_cons]
  rw [if_neg (by decide)]
  simp

theorem stemOf_shape (dir stem : List Char) (h1 : ('/' : Char) ∉ stem)
    (h3 : stem ≠ []) :
    stemOf (dir ++ '/' :: (stem ++ lc ".ovpn")) = stem := by
  have hb : basenameOf (dir ++ '/' :: (stem ++ lc ".ovpn")) = stem ++ lc ".ovpn" := by
    apply basenameOf_eq
    intro hm
    rcases List.mem_append.mp hm with h | h
    · exact h1 h
    · exact absurd h (by decide)
  have hd : (stem ++ lc ".ovpn").reverse.dropWhile (fun c => !(c == '.'))
      = '.' :: stem.reverse := by
    rw [List.reverse_append]
    rw [show (lc ".ovpn").reverse = lc "npvo" ++ ['.'] from by decide]
    rw [List.append_assoc]
    rw [dropWhile_all_append _ (lc "npvo") _ (by decide)]
    rw [List.singleton_append, List.dropWhile_cons]
    rw [if_neg (by decide)]
  cases hs : stem.reverse with
  | nil =>
    exact absurd (by simpa using congrArg List.reverse hs) h3
  | cons x xs =>
    rw [hs] at hd
    simp only [stemOf, hb, hd]
    rw [← List.reverse_reverse stem, hs]

/-! ## Claim theorems -/

/-- C1: for every store state, calling `connect_vpn` while a connection is
already live (status `connected`, or `connecting` with a live backing process)
fails with an error, leaves the state — in particular the active record —
unchanged, and spawns no process. -/
theorem c1_connect_rejected_while_live (st : MState) (configName : List Char)
    (h : connection_status st = lc "connected" ∨ connection_status st = lc "connecting") :
    (connect_vpn st configName).1 = st ∧
    (connect_vpn st configName).2
      = [.errorOccurred (lc "Already connected. Please disconnect first.")] ∧
    ∀ e ∈ (connect_vpn st configName).2, e.isSpawn = false := by
  have hlive : st.connectionProcessLive = some true := by
    cases hc : st.connectionProcessLive with
    | none =>
      simp only [connection_status, hc] at h
      rcases h with h | h <;> exact absurd h (by decide)
    | some b =>
      cases b with
      | false =>
        simp only [connection_status, hc] at h
        rcases h with h | h <;> exact absurd h (by decide)
      | true => rfl
  refine ⟨?_, ?_, ?_⟩
  · simp [connect_vpn, hlive]
  · simp [connect_vpn, hlive]
  · intro e he
    simp [connect_vpn, hlive] at he
    simp [he, Event.isSpawn]

/-- Witness for C1 at a concrete live state. -/
theorem c1_connect_rejected_while_live_witness :
    (connection_status (⟨[], none, some true, none, none, none, none, none, lc "/cfg"⟩ : MState)
        = lc "connected" ∨
     connection_status (⟨[], none, some true, none, none, none, none, none, lc "/cfg"⟩ : MState)
        = lc "connecting") ∧
    (connect_vpn (⟨[], none, some true, none, none, none, none, none, lc "/cfg"⟩ : MState)
        (lc "work")).1
      = (⟨[], none, some true, none, none, none, none, none, lc "/cfg"⟩ : MState) :=
  ⟨Or.inr (by decide),
   (c1_connect_rejected_while_live _ (lc "work") (Or.inr (by decide))).1⟩

/-- C5: `disconnect_vpn` always clears the active record, the retained
privileged secret and the process handle, and reports `disconnected`, for
every prior state and every exit status of the termination command
(`killExit` is ignored by the code); in particular calling it while already
disconnected still ends with status `disconnected`. -/
theorem c5_disconnect_always_clears (st : MState) (killExit : Int) :
    (disconnect_vpn st killExit).1.connectedConfig = none ∧
    (disconnect_vpn st killExit).1.storedPassword = none ∧
    (disconnect_vpn st killExit).1.connectionProcessLive = none ∧
    connection_status (disconnect_vpn st killExit).1 = lc "disconnected" := by
  exact ⟨rfl, rfl, rfl, rfl⟩

/-- Events generated by the `delete_all_configs` loop are only log prints:
no error is surfaced for an individual failed deletion. -/
theorem delete_all_go_no_error (removeOk : List Char → Bool) :
    ∀ (cfgs : List Config) (fs : Fs) (logs : List Event),
      (∀ e ∈ logs, e.isError = false) →
      ∀ e ∈ (delete_all_go removeOk fs logs cfgs).2, e.isError = false := by
  intro cfgs
  induction cfgs with
  | nil => intro fs logs h e he; exact h e he
  | cons c rest ih =>
    intro fs logs h e he
    simp only [delete_all_go] at he
    split at he
    · split at he
      · exact ih _ _ h e he
      · refine ih _ _ ?_ e he
        intro e' he'
        rcases List.mem_append.mp he' with h1 | h1
        · exact h e' h1
        · simp only [List.mem_singleton] at h1
          simp [h1, Event.isError]
    · exact ih _ _ h e he

/-- C7: `delete_all_configs` leaves the in-memory collection empty for every
prior state and every pattern of host deletion failures, and surfaces no
error event (individual failures are only logged). -/
theorem c7_delete_all_clears (st : MState) (fs : Fs) (removeOk : List Char → Bool) :
    (delete_all_configs st fs removeOk).1.configs = [] ∧
    ∀ e ∈ (delete_all_configs st fs removeOk).2.2, e.isError = false := by
  rcases hgo : delete_all_go removeOk fs [] st.configs with ⟨fs', logs⟩
  have hlogs : ∀ e ∈ logs, e.isError = false := by
    have h0 := delete_all_go_no_error removeOk st.configs fs [] (by simp)
    rw [hgo] at h0
    exact h0
  constructor
  · simp [delete_all_configs, hgo]
  · intro e he
    simp only [delete_all_configs, hgo] at he
    rcases List.mem_append.mp he with h1 | h1
    · exact hlogs e h1
    · simp only [List.mem_singleton] at h1
      simp [h1, Event.isError]

/-- C10: submitting credentials with an empty username or an empty password
emits only the validation error and changes nothing: the state (including the
pending request and the record collection) and the filesystem are returned
untouched. -/
theorem c10_empty_credentials_rejected (st : MState) (fs : Fs)
    (username password : List Char) (env : CredEnv)
    (h : username = [] ∨ password = []) :
    provide_vpn_credentials st fs username password env
      = (st, fs, [.errorOccurred (lc "Username and password are required")]) := by
  unfold provide_vpn_credentials
  rw [if_pos h]

/-- C9: along both `_connect_vpn_with_password` and `disconnect_vpn`, the
privileged secret is never written to disk and never logged, every spawned
process receives at most the secret (newline-terminated) on standard input,
and the event traces for two different secrets agree once standard-input
payloads are erased — so the secret influences no command line, file or log,
only the stdin channel of the elevation tool. -/
theorem c9_secret_only_via_stdin (st : MState) (pw pw' : List Char)
    (env : ConnectEnv) (killExit : Int) :
    (∀ e ∈ (connect_vpn_with_password st pw env).2, noPersist e ∧ stdinOnlyFor pw e) ∧
    ((connect_vpn_with_password st pw env).2.map Event.scrubStdin
      = (connect_vpn_with_password st pw' env).2.map Event.scrubStdin) ∧
    (∀ e ∈ (disconnect_vpn { st with storedPassword := some pw } killExit).2,
       noPersist e ∧ stdinOnlyFor pw e) ∧
    ((disconnect_vpn { st with storedPassword := some pw } killExit).2.map Event.scrubStdin
      = (disconnect_vpn { st with storedPassword := some pw' } killExit).2.map Event.scrubStdin) := by
  have hdisc : ∀ q : List Char,
      (disconnect_vpn { st with storedPassword := some q } killExit).2
        = [.spawnProc [lc "sudo", lc "-S", lc "pkill", lc "openvpn"] (some (q ++ ['\n'])),
           .statusChanged (lc "disconnected")] := fun _ => rfl
  refine ⟨?_, ?_, ?_, ?_⟩
  · intro e he
    cases hp : st.pendingConnectConfig with
    | none => simp [connect_vpn_with_password, hp] at he
    | some config =>
      simp only [connect_vpn_with_password, hp] at he
      split at he
      · simp at he
        rcases he with rfl | rfl | rfl | rfl <;>
          simp [noPersist, stdinOnlyFor, Event.isFileWrite, Event.isLog]
      · split at he
        · split at he
          · simp at he
            rcases he with rfl | rfl | rfl | rfl <;>
              simp [noPersist, stdinOnlyFor, Event.isFileWrite, Event.isLog]
          · simp at he
            rcases he with rfl | rfl | rfl | rfl | rfl <;>
              simp [noPersist, stdinOnlyFor, Event.isFileWrite, Event.isLog]
        · simp at he
          rcases he with rfl | rfl | rfl | rfl <;>
            simp [noPersist, stdinOnlyFor, Event.isFileWrite, Event.isLog]
  · cases hp : st.pendingConnectConfig with
    | none => simp [connect_vpn_with_password, hp]
    | some config =>
      simp only [connect_vpn_with_password, hp]
      split_ifs <;> simp [Event.scrubStdin]
  · intro e he
    rw [hdisc pw] at he
    simp at he
    rcases he with rfl | rfl <;>
      simp [noPersist, stdinOnlyFor, Event.isFileWrite, Event.isLog]
  · rw [hdisc pw, hdisc pw']
    simp [Event.scrubStdin]

/-- Witness for C9: the elevation spawn of a concrete connect run neither
persists nor logs, and carries the secret only on standard input. -/
theorem c9_secret_only_via_stdin_witness :
    noPersist (Event.spawnProc
        [lc "sudo", lc "-S", lc "openvpn", lc "--config", lc "/cfg/w.ovpn", lc "--daemon"]
        (some (lc "hunter2" ++ ['\n']))) ∧
    stdinOnlyFor (lc "hunter2") (Event.spawnProc
        [lc "sudo", lc "-S", lc "openvpn", lc "--config", lc "/cfg/w.ovpn", lc "--daemon"]
        (some (lc "hunter2" ++ ['\n']))) :=
  (c9_secret_only_via_stdin
    (⟨[], none, none, some ⟨lc "w", lc "/cfg/w.ovpn", -1, false⟩, none, none, none, none,
      lc "/cfg"⟩ : MState)
    (lc "hunter2") (lc "other") ⟨0, false, [], true⟩ 0).1
    (Event.spawnProc
      [lc "sudo", lc "-S", lc "openvpn", lc "--config", lc "/cfg/w.ovpn", lc "--daemon"]
      (some (lc "hunter2" ++ ['\n'])))
    (by decide)

/-- Witness for C10 at a concrete pending state with an empty username. -/
theorem c10_empty_credentials_rejected_witness :
    provide_vpn_credentials
        (⟨[], none, none, none, none, some (lc "/tmp/a.ovpn"), none, none, lc "/cfg"⟩ : MState)
        ([] : Fs) [] (lc "secret") ⟨true, true, [], false, false, 420⟩
      = ((⟨[], none, none, none, none, some (lc "/tmp/a.ovpn"), none, none, lc "/cfg"⟩ : MState),
         ([] : Fs), [.errorOccurred (lc "Username and password are required")]) :=
  c10_empty_credentials_rejected _ _ _ _ _ (Or.inl rfl)

/-- C8: `_create_auth_file` stores the generated secrets file in the `auth`
subdirectory beside the configuration, under the config's stem with the
`.auth` extension; its content is exactly the two newline-terminated lines
username-then-password with no escaping; its mode is `0o600` (owner only);
and the write overwrites whatever the filesystem previously held at that path
(`fs` is universally quantified), so re-importing regenerates it. -/
theorem c8_auth_file_contract (fs : Fs) (dir stem username password : List Char)
    (dmode : Nat) (h1 : ('/' : Char) ∉ stem) (h3 : stem ≠ []) :
    (create_auth_file fs (dir ++ '/' :: (stem ++ lc ".ovpn")) username password dmode).2
      = dir ++ '/' :: (lc "auth" ++ '/' :: (stem ++ lc ".auth")) ∧
    authContent username password = username ++ '\n' :: (password ++ ['\n']) ∧
    lookupFs (create_auth_file fs (dir ++ '/' :: (stem ++ lc ".ovpn")) username password dmode).1
        ((create_auth_file fs (dir ++ '/' :: (stem ++ lc ".ovpn")) username password dmode).2)
      = some (authContent username password, 384) := by
  have hdir : dirnameOf (dir ++ '/' :: (stem ++ lc ".ovpn")) = dir := by
    apply dirnameOf_eq
    intro hm
    rcases List.mem_append.mp hm with h | h
    · exact h1 h
    · exact absurd h (by decide)
  have hstem := stemOf_shape dir stem h1 h3
  have hpath : (create_auth_file fs (dir ++ '/' :: (stem ++ lc ".ovpn")) username password dmode).2
      = dir ++ '/' :: (lc "auth" ++ '/' :: (stem ++ lc ".auth")) := by
    show authFilePath (dir ++ '/' :: (stem ++ lc ".ovpn"))
        = dir ++ '/' :: (lc "auth" ++ '/' :: (stem ++ lc ".auth"))
    unfold authFilePath
    rw [hdir, hstem]
  refine ⟨hpath, rfl, ?_⟩
  rw [hpath]
  show lookupFs
      (chmodFs
        (writeFs fs (authFilePath (dir ++ '/' :: (stem ++ lc ".ovpn")))
          (authContent username password) dmode)
        (authFilePath (dir ++ '/' :: (stem ++ lc ".ovpn"))) 384)
      (dir ++ '/' :: (lc "auth" ++ '/' :: (stem ++ lc ".auth")))
      = some (authContent username password, 384)
  have hpa : authFilePath (dir ++ '/' :: (stem ++ lc ".ovpn"))
      = dir ++ '/' :: (lc "auth" ++ '/' :: (stem ++ lc ".auth")) := hpath
  rw [hpa]
  obtain ⟨m, hw⟩ := lookupFs_writeFs_self fs
    (dir ++ '/' :: (lc "auth" ++ '/' :: (stem ++ lc ".auth")))
    (authContent username password) dmode
  exact lookupFs_chmodFs_self _ _ _ hw

/-- Witness for C8 at a concrete directory, stem and credential pair. -/
theorem c8_auth_file_contract_witness :
    (create_auth_file ([] : Fs) (lc "/home/u/.vpn_manager/configs" ++ '/' :: (lc "work" ++ lc ".ovpn"))
        (lc "alice") (lc "s3cret") 420).2
      = lc "/home/u/.vpn_manager/configs" ++ '/' :: (lc "auth" ++ '/' :: (lc "work" ++ lc ".auth")) ∧
    authContent (lc "alice") (lc "s3cret") = lc "alice" ++ '\n' :: (lc "s3cret" ++ ['\n']) ∧
    lookupFs (create_auth_file ([] : Fs)
        (lc "/home/u/.vpn_manager/configs" ++ '/' :: (lc "work" ++ lc ".ovpn"))
        (lc "alice") (lc "s3cret") 420).1
        ((create_auth_file ([] : Fs)
          (lc "/home/u/.vpn_manager/configs" ++ '/' :: (lc "work" ++ lc ".ovpn"))
          (lc "alice") (lc "s3cret") 420).2)
      = some (authContent (lc "alice") (lc "s3cret"), 384) :=
  c8_auth_file_contract ([] : Fs) (lc "/home/u/.vpn_manager/configs") (lc "work")
    (lc "alice") (lc "s3cret") 420 (by decide) (by decide)

/-- A substring of `v` is a substring of `u ++ v`. -/
theorem containsSub_append_right (tok v : List Char) (h : containsSub tok v = true) :
    ∀ u : List Char, containsSub tok (u ++ v) = true := by
  intro u
  induction u with
  | nil => simpa using h
  | cons c t ih => simp [containsSub, ih]

set_option maxRecDepth 8000 in
/-- C2 counterexample: on a host where neither DNS-update helper script
exists, `_inject_dns_leak_prevention` is not idempotent — the second
invocation appends the comment block again, because the fallback block
contains neither of the two checked marker substrings. -/
theorem c2_counterexample :
    inject_dns_leak_prevention
        (inject_dns_leak_prevention (lc "remote example.com 1194\n") false false) false false
      ≠ inject_dns_leak_prevention (lc "remote example.com 1194\n") false false := by
  decide

/-- C2 amended: `_inject_dns_leak_prevention` is idempotent whenever at least
one of the two DNS-update helper scripts exists on the host filesystem (the
appended block then references that script, so the second call is a no-op);
and it never touches a file that already references either mechanism.  (In
the remaining case — neither script present — a second call appends again,
as the counterexample shows.) -/
theorem c2_amended_idempotent :
    (∀ (content : List Char) (resolv sysd : Bool), resolv = true ∨ sysd = true →
       inject_dns_leak_prevention (inject_dns_leak_prevention content resolv sysd) resolv sysd
         = inject_dns_leak_prevention content resolv sysd) ∧
    (∀ (content : List Char) (resolv sysd : Bool),
       (containsSub (lc "update-resolv-conf") content
         || containsSub (lc "update-systemd-resolved") content) = true →
       inject_dns_leak_prevention content resolv sysd = content) := by
  have halready : ∀ (content : List Char) (resolv sysd : Bool),
      (containsSub (lc "update-resolv-conf") content
        || containsSub (lc "update-systemd-resolved") content) = true →
      inject_dns_leak_prevention content resolv sysd = content := by
    intro content resolv sysd h
    unfold inject_dns_leak_prevention
    rw [if_pos h]
  refine ⟨?_, halready⟩
  intro content resolv sysd hrs
  by_cases h : (containsSub (lc "update-resolv-conf") content
      || containsSub (lc "update-systemd-resolved") content) = true
  · rw [halready _ _ _ h, halready _ _ _ h]
  · have hinj : inject_dns_leak_prevention content resolv sysd
        = content ++ dnsBlock resolv sysd := by
      unfold inject_dns_leak_prevention
      rw [if_neg h]
    rw [hinj]
    apply halready
    rcases hrs with hr | hs
    · subst hr
      have hblock : containsSub (lc "update-resolv-conf") (dnsBlock true sysd) = true := by
        have hbb : dnsBlock true sysd = dnsBlock true true := by simp [dnsBlock]
        rw [hbb]; decide
      rw [containsSub_append_right _ _ hblock content]
      simp
    · subst hs
      cases hr2 : resolv with
      | true =>
        have hblock : containsSub (lc "update-resolv-conf") (dnsBlock true true) = true := by
          decide
        rw [containsSub_append_right _ _ hblock content]
        simp
      | false =>
        have hblock : containsSub (lc "update-systemd-resolved") (dnsBlock false true) = true := by
          decide
        rw [containsSub_append_right _ _ hblock content]
        simp

/-- Witness for C2's amended claim on a concrete file and host with the
`update-resolv-conf` helper present. -/
theorem c2_amended_idempotent_witness :
    inject_dns_leak_prevention
        (inject_dns_leak_prevention (lc "remote example.com 1194\n") true false) true false
      = inject_dns_leak_prevention (lc "remote example.com 1194\n") true false :=
  c2_amended_idempotent.1 (lc "remote example.com 1194\n") true false (Or.inl rfl)

/-! ### `get_best_server` loop invariants. -/

theorem gbs_go_none : ∀ (l : List Config) (best : Option Config),
    get_best_server_go l best = none →
    best = none ∧ ∀ c ∈ l, ¬(c.pingSuccess = true ∧ 0 < c.latency) := by
  intro l
  induction l with
  | nil =>
    intro best h
    exact ⟨h, by simp⟩
  | cons c rest ih =>
    intro best h
    simp only [get_best_server_go] at h
    rcases ih _ h with ⟨hb, hrest⟩
    have hX : ¬ (better best c = true) := by
      intro hx
      rw [if_pos hx] at hb
      exact Option.noConfusion hb
    rw [if_neg hX] at hb
    subst hb
    refine ⟨rfl, ?_⟩
    intro d hd
    rcases List.mem_cons.mp hd with rfl | hm
    · rintro ⟨hp, hl⟩
      exact hX (by simp [better, hp, hl])
    · exact hrest d hm

theorem gbs_go_some : ∀ (l : List Config) (best : Option Config) (b : Config),
    (∀ b0, best = some b0 → b0.pingSuccess = true ∧ 0 < b0.latency) →
    get_best_server_go l best = some b →
    (b.pingSuccess = true ∧ 0 < b.latency) ∧
    (b ∈ l ∨ best = some b) ∧
    (∀ c ∈ l, c.pingSuccess = true → 0 < c.latency → b.latency ≤ c.latency) ∧
    (∀ b0, best = some b0 → b.latency ≤ b0.latency) := by
  intro l
  induction l with
  | nil =>
    intro best b hbest h
    have h' : best = some b := h
    refine ⟨hbest b h', Or.inr h', by simp, ?_⟩
    intro b0 hb0
    rw [hb0] at h'
    injection h' with e
    rw [e]
  | cons c rest ih =>
    intro best b hbest h
    simp only [get_best_server_go] at h
    by_cases hc : better best c = true
    · rw [if_pos hc] at h
      have hqc : c.pingSuccess = true ∧ 0 < c.latency := by
        have hc' := hc
        simp only [better, Bool.and_eq_true, decide_eq_true_eq] at hc'
        exact hc'.1
      have ih' := ih (some c) b
        (fun b0 hb0 => by injection hb0 with e; rw [← e]; exact hqc) h
      rcases ih' with ⟨hqb, hmem, hmin, hle⟩
      refine ⟨hqb, ?_, ?_, ?_⟩
      · rcases hmem with hm | hm
        · exact Or.inl (List.mem_cons_of_mem _ hm)
        · injection hm with e
          exact Or.inl (e ▸ List.mem_cons_self _ _)
      · intro d hd hdp hdl
        rcases List.mem_cons.mp hd with rfl | hm
        · exact hle d rfl
        · exact hmin d hm hdp hdl
      · intro b0 hb0
        have h1 : b.latency ≤ c.latency := hle c rfl
        have h2 : c.latency < b0.latency := by
          rw [hb0] at hc
          simp only [better, Bool.and_eq_true, decide_eq_true_eq] at hc
          exact hc.2
        exact le_trans h1 (le_of_lt h2)
    · rw [if_neg hc] at h
      rcases ih best b hbest h with ⟨hqb, hmem, hmin, hle⟩
      refine ⟨hqb, ?_, ?_, hle⟩
      · rcases hmem with hm | hm
        · exact Or.inl (List.mem_cons_of_mem _ hm)
        · exact Or.inr hm
      · intro d hd hdp hdl
        rcases List.mem_cons.mp hd with rfl | hm
        · cases hbb : best with
          | none =>
            rw [hbb] at hc
            exact absurd (by simp [better, hdp, hdl]) hc
          | some b0 =>
            rw [hbb] at hc
            have hnlt : ¬ (d.latency < b0.latency) := by
              intro hlt
              exact hc (by simp [better, hdp, hdl, hlt])
            have hb0le : b0.latency ≤ d.latency := le_of_not_lt hnlt
            exact le_trans (hle b0 hbb) hb0le
        · exact hmin d hm hdp hdl

/-- C4: `get_best_server` returns the name of a reachable record of minimal
strictly-positive latency (any qualifying record implies such a minimal
witness is returned), returns the empty string when no record qualifies, and
on the spec's example `[{A, 40, true}, {B, 15, true}, {C, -1, false}]`
returns `B`. -/
theorem c4_best_server_minimal (configs : List Config) :
    ((∀ c ∈ configs, ¬(c.pingSuccess = true ∧ 0 < c.latency)) →
       get_best_server configs = []) ∧
    (∀ c0 ∈ configs, c0.pingSuccess = true → 0 < c0.latency →
       ∃ b ∈ configs, b.pingSuccess = true ∧ 0 < b.latency ∧
         get_best_server configs = b.name ∧
         ∀ c ∈ configs, c.pingSuccess = true → 0 < c.latency →
           b.latency ≤ c.latency) ∧
    get_best_server
        [⟨lc "A", lc "/a", 40, true⟩, ⟨lc "B", lc "/b", 15, true⟩,
         ⟨lc "C", lc "/c", -1, false⟩]
      = lc "B" := by
  refine ⟨?_, ?_, by decide⟩
  · intro h
    unfold get_best_server
    cases hgo : get_best_server_go configs none with
    | none => rfl
    | some b =>
      exfalso
      rcases gbs_go_some configs none b (by simp) hgo with ⟨hq, hmem, _, _⟩
      rcases hmem with hm | hm
      · exact h b hm hq
      · exact Option.noConfusion hm
  · intro c0 hc0 hp hl
    cases hgo : get_best_server_go configs none with
    | none =>
      have hn := gbs_go_none configs none hgo
      exact absurd ⟨hp, hl⟩ (hn.2 c0 hc0)
    | some b =>
      rcases gbs_go_some configs none b (by simp) hgo with ⟨⟨hbp, hbl⟩, hmem, hmin, _⟩
      rcases hmem with hm | hm
      · refine ⟨b, hm, hbp, hbl, ?_, hmin⟩
        unfold get_best_server
        rw [hgo]
      · exact Option.noConfusion hm

/-- Witness for C4 on the spec's three-record example: `B` qualifies, so a
minimal reachable record is returned. -/
theorem c4_best_server_minimal_witness :
    ∃ b ∈ [(⟨lc "A", lc "/a", 40, true⟩ : Config), ⟨lc "B", lc "/b", 15, true⟩,
           ⟨lc "C", lc "/c", -1, false⟩],
      b.pingSuccess = true ∧ 0 < b.latency ∧
      get_best_server
          [⟨lc "A", lc "/a", 40, true⟩, ⟨lc "B", lc "/b", 15, true⟩,
           ⟨lc "C", lc "/c", -1, false⟩]
        = b.name ∧
      ∀ c ∈ [(⟨lc "A", lc "/a", 40, true⟩ : Config), ⟨lc "B", lc "/b", 15, true⟩,
             ⟨lc "C", lc "/c", -1, false⟩],
        c.pingSuccess = true → 0 < c.latency → b.latency ≤ c.latency :=
  (c4_best_server_minimal _).2.1 ⟨lc "B", lc "/b", 15, true⟩ (by decide) (by decide) (by decide)

/-! ### Folder-import invariants. -/

theorem append_slash_inj (l : List Char) {a b : List Char}
    (h : l ++ '/' :: a = l ++ '/' :: b) : a = b := by
  have h1 := List.append_cancel_left h
  injection h1

/-- Files already present under the managed directory (on a slash-free
relative name) survive the folder-import loop with their content and mode
untouched: the loop only writes at destination paths it found absent and at
`auth/`-subdirectory paths. -/
theorem folder_go_preserves (cfgDir username password : List Char)
    (resolv sysd : Bool) (dmode : Nat) :
    ∀ (srcFiles : List (List Char × List Char × Nat)) (fs : Fs)
      (cfgs : List Config) (count : Nat),
      (∀ f ∈ srcFiles, ('/' : Char) ∉ f.1) →
      ∀ (tail : List Char) (v : List Char × Nat), ('/' : Char) ∉ tail →
        lookupFs fs (cfgDir ++ '/' :: tail) = some v →
        lookupFs
            (add_config_folder_go cfgDir username password resolv sysd dmode
              fs cfgs count srcFiles).1
            (cfgDir ++ '/' :: tail)
          = some v := by
  intro srcFiles
  induction srcFiles with
  | nil =>
    intro fs cfgs count _ tail v _ hv
    exact hv
  | cons f rest ih =>
    obtain ⟨fname, content, mode⟩ := f
    intro fs cfgs count hns tail v htail hv
    have hfn : ('/' : Char) ∉ fname :=
      hns ⟨fname, content, mode⟩ (List.mem_cons_self _ _)
    have hns' : ∀ f ∈ rest, ('/' : Char) ∉ f.1 :=
      fun f hf => hns f (List.mem_cons_of_mem _ hf)
    by_cases hex : (lookupFs fs (cfgDir ++ '/' :: fname)).isSome = true
    · simp only [add_config_folder_go]
      rw [if_pos hex]
      exact ih fs cfgs count hns' tail v htail hv
    · simp only [add_config_folder_go]
      rw [if_neg hex]
      have hne_dest : cfgDir ++ '/' :: fname ≠ cfgDir ++ '/' :: tail := by
        intro he
        have : fname = tail := append_slash_inj cfgDir he
        apply hex
        rw [this, hv]
        rfl
      have hauth : authFilePath (cfgDir ++ '/' :: fname)
          = cfgDir ++ '/' :: (lc "auth" ++ '/' :: (stemOf (cfgDir ++ '/' :: fname) ++ lc ".auth")) := by
        unfold authFilePath
        rw [dirnameOf_eq cfgDir fname hfn]
      have hne_auth : authFilePath (cfgDir ++ '/' :: fname) ≠ cfgDir ++ '/' :: tail := by
        rw [hauth]
        intro he
        have heq := append_slash_inj cfgDir he
        apply htail
        rw [← heq]
        exact List.mem_append.mpr (Or.inr (List.mem_cons_self _ _))
      apply ih _ _ _ hns' tail v htail
      show lookupFs
          (writeFs
            (writeFs
              (chmodFs
                (writeFs (copyFs fs (cfgDir ++ '/' :: fname) content mode)
                  (authFilePath (cfgDir ++ '/' :: fname)) (authContent username password) dmode)
                (authFilePath (cfgDir ++ '/' :: fname)) 384)
              (cfgDir ++ '/' :: fname)
              (inject_auth_credentials content (authFilePath (cfgDir ++ '/' :: fname))) dmode)
            (cfgDir ++ '/' :: fname)
            (inject_dns_leak_prevention
              (inject_auth_credentials content (authFilePath (cfgDir ++ '/' :: fname))) resolv sysd)
            dmode)
          (cfgDir ++ '/' :: tail)
        = some v
      rw [lookupFs_writeFs_ne _ _ _ _ _ hne_dest]
      rw [lookupFs_writeFs_ne _ _ _ _ _ hne_dest]
      rw [lookupFs_chmodFs_ne _ _ _ _ hne_auth]
      rw [lookupFs_writeFs_ne _ _ _ _ _ hne_auth]
      rw [lookupFs_copyFs_ne _ _ _ _ _ hne_dest]
      exact hv

/-- C6: the folder import never overwrites an existing destination file —
any file already present in the managed directory keeps its exact content
(and mode), colliding source files being skipped without an error — and an
error event is emitted if and only if the loop newly added zero files. -/
theorem c6_add_folder_no_overwrite (st : MState) (fs : Fs) (folderPath : List Char)
    (srcFiles : List (List Char × List Char × Nat)) (username password : List Char)
    (resolv sysd : Bool) (dmode : Nat)
    (hns : ∀ f ∈ srcFiles, ('/' : Char) ∉ f.1) :
    (∀ (tail : List Char) (v : List Char × Nat), ('/' : Char) ∉ tail →
       lookupFs fs (st.configDir ++ '/' :: tail) = some v →
       lookupFs (add_config_folder_with_credentials st fs folderPath true srcFiles
           username password resolv sysd dmode).2.1
         (st.configDir ++ '/' :: tail) = some v) ∧
    ((∃ m, Event.errorOccurred m ∈ (add_config_folder_with_credentials st fs folderPath true
         srcFiles username password resolv sysd dmode).2.2) ↔
       (add_config_folder_go st.configDir username password resolv sysd dmode fs st.configs 0
         srcFiles).2.2 = 0) := by
  rcases hgo : add_config_folder_go st.configDir username password resolv sysd dmode fs
    st.configs 0 srcFiles with ⟨fs', cfgs', count⟩
  have hpres := folder_go_preserves st.configDir username password resolv sysd dmode
    srcFiles fs st.configs 0 hns
  rw [hgo] at hpres
  constructor
  · intro tail v htail hv
    have hfs1 : (add_config_folder_with_credentials st fs folderPath true srcFiles
        username password resolv sysd dmode).2.1 = fs' := by
      unfold add_config_folder_with_credentials
      rw [if_neg (by simp)]
      rw [hgo]
      dsimp only
      by_cases hc : 0 < count
      · rw [if_pos hc]
      · rw [if_neg hc]
    rw [hfs1]
    exact hpres tail v htail hv
  · have hev : (add_config_folder_with_credentials st fs folderPath true srcFiles
        username password resolv sysd dmode).2.2
        = if 0 < count then [Event.configsChanged]
          else [Event.errorOccurred (lc "No new .ovpn files found in folder")] := by
      unfold add_config_folder_with_credentials
      rw [if_neg (by simp)]
      rw [hgo]
      dsimp only
      by_cases hc : 0 < count
      · rw [if_pos hc, if_pos hc]
      · rw [if_neg hc, if_neg hc]
    rw [hev]
    dsimp only
    by_cases hc : 0 < count
    · rw [if_pos hc]
      constructor
      · rintro ⟨m, hm⟩
        simp at hm
      · intro hzero
        exact absurd hzero (by omega)
    · rw [if_neg hc]
      constructor
      · intro _
        omega
      · intro _
        exact ⟨lc "No new .ovpn files found in folder", List.mem_singleton.mpr rfl⟩

/-- Witness for C6: a one-file folder import against a managed directory that
already holds a file of the same name leaves the existing content in place
and, having added nothing, reports the error. -/
theorem c6_add_folder_no_overwrite_witness :
    lookupFs
        (add_config_folder_with_credentials
          (⟨[], none, none, none, none, none, none, none, lc "/cfg"⟩ : MState)
          ([(lc "/cfg" ++ '/' :: lc "w.ovpn", (lc "old-content", 420))] : Fs)
          (lc "/src") true [(lc "w.ovpn", lc "new-content", 420)]
          (lc "u") (lc "p") false false 420).2.1
        (lc "/cfg" ++ '/' :: lc "w.ovpn")
      = some (lc "old-content", 420) :=
  (c6_add_folder_no_overwrite
    (⟨[], none, none, none, none, none, none, none, lc "/cfg"⟩ : MState)
    ([(lc "/cfg" ++ '/' :: lc "w.ovpn", (lc "old-content", 420))] : Fs)
    (lc "/src") [(lc "w.ovpn", lc "new-content", 420)]
    (lc "u") (lc "p") false false 420 (by decide)).1
    (lc "w.ovpn") (lc "old-content", 420) (by decide) (by decide)

/-! ### Case-insensitive matching lemmas for the auth-directive substitution.

The two separator characters `' '` and `'\n'` occur nowhere in the pattern
`auth-user-pass`, and nothing matches them case-insensitively other than
themselves, so occurrence counting splits exactly at those characters. -/

theorem dropCI_self : ∀ (tok s : List Char), dropCI tok (tok ++ s) = some s := by
  intro tok
  induction tok with
  | nil => intro s; simp [dropCI]
  | cons t ts ih =>
    intro s
    simp only [List.cons_append, dropCI]
    rw [if_pos (by simp [lowerEq])]
    exact ih s

theorem dropCI_append_incomp (d : Char) : ∀ (tok u v : List Char),
    (∀ t ∈ tok, lowerEq t d = false) →
    (dropCI tok (u ++ d :: v)).isSome = (dropCI tok u).isSome := by
  intro tok
  induction tok with
  | nil => intro u v _; simp [dropCI]
  | cons t ts ih =>
    intro u v h
    cases u with
    | nil =>
      have htd : lowerEq t d = false := h t (List.mem_cons_self _ _)
      simp [dropCI, htd]
    | cons c u' =>
      simp only [List.cons_append, dropCI]
      by_cases hc : lowerEq t c = true
      · rw [if_pos hc, if_pos hc]
        exact ih u' v (fun x hx => h x (List.mem_cons_of_mem _ hx))
      · rw [if_neg hc, if_neg hc]

theorem occursCI_append_incomp (d : Char) (tok : List Char) (hne : tok ≠ [])
    (h : ∀ t ∈ tok, lowerEq t d = false) :
    ∀ (u v : List Char), occursCI tok (u ++ d :: v) = occursCI tok u + occursCI tok v := by
  intro u
  induction u with
  | nil =>
    intro v
    cases tok with
    | nil => exact absurd rfl hne
    | cons t ts =>
      have htd : lowerEq t d = false := h t (List.mem_cons_self _ _)
      simp [occursCI, dropCI, htd]
  | cons c u' ih =>
    intro v
    have hstep : ∀ (x : Char) (xs : List Char),
        occursCI tok (x :: xs)
          = (if (dropCI tok (x :: xs)).isSome then 1 else 0) + occursCI tok xs :=
      fun _ _ => rfl
    rw [show (c :: u') ++ d :: v = c :: (u' ++ d :: v) from rfl]
    rw [hstep c (u' ++ d :: v), hstep c u', ih v]
    rw [show c :: (u' ++ d :: v) = (c :: u') ++ d :: v from rfl]
    rw [dropCI_append_incomp d tok (c :: u') v h]
    omega

theorem occursCI_cons_zero {tok : List Char} {c : Char} {t : List Char}
    (h : occursCI tok (c :: t) = 0) :
    (dropCI tok (c :: t)).isSome = false ∧ occursCI tok t = 0 := by
  simp only [occursCI] at h
  by_cases hi : (dropCI tok (c :: t)).isSome = true
  · rw [if_pos hi] at h
    omega
  · rw [if_neg hi] at h
    exact ⟨by simpa using hi, by omega⟩

theorem containsCI_iff_occursCI (tok : List Char) :
    ∀ s, containsCI tok s = true ↔ occursCI tok s ≠ 0 := by
  intro s
  induction s with
  | nil => simp [containsCI, occursCI]
  | cons c rest ih =>
    by_cases hi : (dropCI tok (c :: rest)).isSome = true <;>
      simp [containsCI, occursCI, hi, ih]

theorem matchAuth_nl (s : List Char) : matchAuth ('\n' :: s) = none := by
  have hd : dropCI authTok ('\n' :: s) = none := by
    rw [show authTok = 'a' :: lc "uth-user-pass" from by decide]
    simp only [dropCI]
    rw [if_neg (by decide)]
  simp only [matchAuth, hd]

theorem subAuth_eq_of_match {s rem : List Char} (af : List Char)
    (h : matchAuth s = some rem) :
    subAuth af s = (authTok ++ ' ' :: af) ++ subAuth af rem := by
  cases s with
  | nil =>
    rw [show matchAuth [] = none from by decide] at h
    exact Option.noConfusion h
  | cons c rest => exact subAuth_cons_some af h

theorem subAuth_eq_self (af : List Char) : ∀ s, occursCI authTok s = 0 → subAuth af s = s := by
  intro s
  induction s with
  | nil => intro _; exact subAuth_nil af
  | cons c rest ih =>
    intro h0
    obtain ⟨hi, ht⟩ := occursCI_cons_zero h0
    have hma : matchAuth (c :: rest) = none := by
      cases hd : dropCI authTok (c :: rest) with
      | none => simp only [matchAuth, hd]
      | some r0 =>
        rw [hd] at hi
        simp at hi
    rw [subAuth_cons_none af hma, ih ht]

theorem subAuth_scan_front (af ys : List Char) :
    ∀ xs, occursCI authTok xs = 0 →
      subAuth af (xs ++ '\n' :: ys) = xs ++ subAuth af ('\n' :: ys) := by
  intro xs
  induction xs with
  | nil => intro _; simp
  | cons c t ih =>
    intro h0
    obtain ⟨hi, ht⟩ := occursCI_cons_zero h0
    have hncomp : ∀ tk ∈ authTok, lowerEq tk '\n' = false := by decide
    have hind : (dropCI authTok (c :: (t ++ '\n' :: ys))).isSome = false := by
      rw [show c :: (t ++ '\n' :: ys) = (c :: t) ++ '\n' :: ys from rfl]
      rw [dropCI_append_incomp '\n' authTok (c :: t) ys hncomp]
      exact hi
    have hma : matchAuth (c :: (t ++ '\n' :: ys)) = none := by
      cases hd : dropCI authTok (c :: (t ++ '\n' :: ys)) with
      | none => simp only [matchAuth, hd]
      | some r0 =>
        rw [hd] at hind
        simp at hind
    rw [List.cons_append, subAuth_cons_none af hma, ih ht, List.cons_append]

theorem drop_until_nl : ∀ (t post : List Char), ('\n' : Char) ∉ t →
    List.dropWhile (fun x => !(x == '\n')) (t ++ '\n' :: post) = '\n' :: post := by
  intro t
  induction t with
  | nil =>
    intro post _
    rw [List.nil_append, List.dropWhile_cons, if_neg (by decide)]
  | cons b t' ih =>
    intro post hn
    have hbt : (!(b == '\n')) = true := by
      have hb' : (b == '\n') = false :=
        beq_eq_false_iff_ne.mpr (fun he => hn (he ▸ List.mem_cons_self _ _))
      simp [hb']
    rw [List.cons_append, List.dropWhile_cons, if_pos hbt]
    exact ih post (fun hm => hn (List.mem_cons_of_mem _ hm))

theorem consume_arg : ∀ (arg post : List Char), ('\n' : Char) ∉ arg →
    (∃ c ∈ arg, isPySpace c = false) →
    List.dropWhile (fun x => !(x == '\n'))
        (List.dropWhile isPySpace (arg ++ '\n' :: post)) = '\n' :: post := by
  intro arg
  induction arg with
  | nil =>
    intro post _ ha
    rcases ha with ⟨c, hc, _⟩
    exact absurd hc (List.not_mem_nil c)
  | cons a t ih =>
    intro post hn ha
    by_cases hs : isPySpace a = true
    · rw [List.cons_append, List.dropWhile_cons, if_pos hs]
      refine ih post (fun hm => hn (List.mem_cons_of_mem _ hm)) ?_
      rcases ha with ⟨c, hc, hcs⟩
      rcases List.mem_cons.mp hc with rfl | hm
      · exact absurd hs (by simp [hcs])
      · exact ⟨c, hm, hcs⟩
    · rw [List.cons_append, List.dropWhile_cons, if_neg hs]
      have hat : (!(a == '\n')) = true := by
        have hb' : (a == '\n') = false :=
          beq_eq_false_iff_ne.mpr (fun he => hn (he ▸ List.mem_cons_self _ _))
        simp [hb']
      rw [List.dropWhile_cons, if_pos hat]
      exact drop_until_nl t post (fun hm => hn (List.mem_cons_of_mem _ hm))

theorem matchAuth_fire (arg post : List Char) (hn : ('\n' : Char) ∉ arg)
    (ha : ∃ c ∈ arg, isPySpace c = false) :
    matchAuth (authTok ++ ' ' :: (arg ++ '\n' :: post)) = some ('\n' :: post) := by
  have hd := dropCI_self authTok (' ' :: (arg ++ '\n' :: post))
  simp only [matchAuth, hd]
  rw [if_pos (by decide)]
  congr 1
  rw [List.dropWhile_cons, if_pos (by decide)]
  exact consume_arg arg post hn ha

/-- C3 counterexample: `re.sub` is called without `count=1`, so it replaces
every matching directive, not only the first; a config containing two
auth-user-pass directives still contains two afterwards — the claim's
"afterwards exactly one such directive exists" fails. -/
theorem c3_counterexample :
    containsCI authTok (lc "auth-user-pass a\nauth-user-pass b\n") = true ∧
    occursCI authTok
        (inject_auth_credentials (lc "auth-user-pass a\nauth-user-pass b\n") (lc "/x.creds"))
      = 2 := by
  decide

/-- C3 amended: `_inject_auth_credentials` replaces the argument of every
matching directive (case-insensitively), not only the first.  Consequently,
for content containing exactly one occurrence of the directive token — on a
line of its own, with a single-line argument holding at least one
non-whitespace character — the result rewrites exactly that directive in
place to point at the new secrets file, and exactly one directive exists
afterwards (for a replacement path itself free of the token).  For content
with no occurrence at all, a fresh directive line preceded by the
manager-generated comment marker is appended unchanged from the claim. -/
theorem c3_amended_inject_auth :
    (∀ pre arg post af : List Char,
      occursCI authTok (pre ++ '\n' :: (authTok ++ ' ' :: (arg ++ '\n' :: post))) = 1 →
      ('\n' : Char) ∉ arg →
      (∃ c ∈ arg, isPySpace c = false) →
      occursCI authTok af = 0 →
      inject_auth_credentials (pre ++ '\n' :: (authTok ++ ' ' :: (arg ++ '\n' :: post))) af
        = pre ++ '\n' :: (authTok ++ ' ' :: (af ++ '\n' :: post)) ∧
      occursCI authTok (pre ++ '\n' :: (authTok ++ ' ' :: (af ++ '\n' :: post))) = 1) ∧
    (∀ content af : List Char, containsCI authTok content = false →
      inject_auth_credentials content af
        = content ++ lc "\n# VPN Credentials (added by VPN Manager)\nauth-user-pass "
            ++ af ++ ['\n']) := by
  constructor
  · intro pre arg post af h1 hn ha haf
    have hncomp : ∀ tk ∈ authTok, lowerEq tk '\n' = false := by decide
    have hscomp : ∀ tk ∈ authTok, lowerEq tk ' ' = false := by decide
    have htokne : authTok ≠ [] := by decide
    have hself : occursCI authTok authTok = 1 := by decide
    have hsep1 := occursCI_append_incomp '\n' authTok htokne hncomp pre
      (authTok ++ ' ' :: (arg ++ '\n' :: post))
    have hsep2 := occursCI_append_incomp ' ' authTok htokne hscomp authTok
      (arg ++ '\n' :: post)
    have hsep3 := occursCI_append_incomp '\n' authTok htokne hncomp arg post
    rw [hsep1, hsep2, hself, hsep3] at h1
    have hpre0 : occursCI authTok pre = 0 := by omega
    have hpost0 : occursCI authTok post = 0 := by omega
    constructor
    · have hcont : containsCI authTok
          (pre ++ '\n' :: (authTok ++ ' ' :: (arg ++ '\n' :: post))) = true := by
        rw [containsCI_iff_occursCI]
        rw [hsep1, hsep2, hself, hsep3]
        omega
      unfold inject_auth_credentials
      rw [if_pos hcont]
      rw [subAuth_scan_front af _ pre hpre0]
      rw [subAuth_cons_none af (matchAuth_nl _)]
      rw [subAuth_eq_of_match af (matchAuth_fire arg post hn ha)]
      rw [subAuth_cons_none af (matchAuth_nl _)]
      rw [subAuth_eq_self af post hpost0]
      simp [List.append_assoc, List.cons_append]
    · have hsep1' := occursCI_append_incomp '\n' authTok htokne hncomp pre
        (authTok ++ ' ' :: (af ++ '\n' :: post))
      have hsep2' := occursCI_append_incomp ' ' authTok htokne hscomp authTok
        (af ++ '\n' :: post)
      have hsep3' := occursCI_append_incomp '\n' authTok htokne hncomp af post
      rw [hsep1', hsep2', hself, hsep3', hpre0, hpost0, haf]
  · intro content af hc
    unfold inject_auth_credentials
    rw [if_neg (by simp [hc])]

/-- Witness for C3's amended claim on a concrete single-directive config. -/
theorem c3_amended_inject_auth_witness :
    inject_auth_credentials
        (lc "client" ++ '\n' :: (authTok ++ ' ' :: (lc "old.txt" ++ '\n' :: lc "remote h 1194\n")))
        (lc "/cfg/creds/w.creds")
      = lc "client" ++ '\n' :: (authTok ++ ' ' :: (lc "/cfg/creds/w.creds" ++ '\n' :: lc "remote h 1194\n")) ∧
    occursCI authTok
        (lc "client" ++ '\n' :: (authTok ++ ' ' :: (lc "/cfg/creds/w.creds" ++ '\n' :: lc "remote h 1194\n")))
      = 1 :=
  c3_amended_inject_auth.1 (lc "client") (lc "old.txt") (lc "remote h 1194\n")
    (lc "/cfg/creds/w.creds") (by decide) (by decide) (by decide) (by decide)

end VPNSpec
